import Mathlib

/-!
Verification of the LifeRX Agno Hub core (src/agno-hub): the streaming
orchestrator `stream_response`, the text extractors `extract_next_actions`
and `extract_assumptions` (server.py), and the tool callback `call_tool`
(tools.py).

Text is modelled as `List Char`; each Python string primitive used by the
code gets a faithful `List Char` counterpart.  External collaborators
(the routing engine, the specialist agents, the HTTP client) are modelled
by small inductive types enumerating the outcomes the code distinguishes,
and the SSE frames the generator yields are modelled as structured events.
-/

namespace LifeRX

/-- Text, modelled as a list of characters. -/
abbrev Str := List Char

/-- Lift a Lean string literal to the `List Char` text model. -/
def str (s : String) : Str := s.data

/-- Python `s.lower()` (ASCII-faithful). -/
def lowerS (s : Str) : Str := s.map Char.toLower

/-- Python `s.strip()`: drop whitespace at both ends. -/
def stripS (s : Str) : Str :=
  ((s.dropWhile Char.isWhitespace).reverse.dropWhile Char.isWhitespace).reverse

/-- Python `needle in hay` (substring containment). -/
def containsSub : Str → Str → Bool
  | [], needle => needle.isEmpty
  | hay@(_ :: t), needle => needle.isPrefixOf hay || containsSub t needle

/-- Python `s.split(sep)` for a one-character separator: non-collapsing,
`"".split(sep) == [""]`, adjacent separators produce empty fields. -/
def pySplit (sep : Char) : Str → List Str
  | [] => [[]]
  | c :: cs =>
    if c = sep then [] :: pySplit sep cs
    else
      match pySplit sep cs with
      | [] => [[c]]
      | w :: ws => (c :: w) :: ws

theorem pySplit_ne_nil (sep : Char) (s : Str) : pySplit sep s ≠ [] := by
  cases s with
  | nil => simp [pySplit]
  | cons c cs =>
    by_cases h : c = sep
    · simp [pySplit, h]
    · simp only [pySplit, if_neg h]
      cases pySplit sep cs with
      | nil => simp
      | cons w ws => simp

/-- server.py lines 181-183: each word of `content.split(' ')` receives a
trailing space except the last one (the `' ' if i < len(words) - 1 else ''`
in the loop). -/
def addTrailingSpaces : List Str → List Str
  | [] => []
  | [w] => [w]
  | w :: ws => (w ++ [' ']) :: addTrailingSpaces ws

/-- The chunks the streaming loop (server.py lines 180-186) yields as
`delta` events for a specialist output `content`. -/
def chunksOf (content : Str) : List Str :=
  addTrailingSpaces (pySplit ' ' content)

theorem flatten_chunksOf (s : Str) : (chunksOf s).flatten = s := by
  unfold chunksOf
  induction s with
  | nil => simp [pySplit, addTrailingSpaces]
  | cons c cs ih =>
    by_cases h : c = ' '
    · subst h
      simp only [pySplit, if_pos rfl]
      obtain ⟨w, ws, hws⟩ : ∃ w ws, pySplit ' ' cs = w :: ws := by
        cases hp : pySplit ' ' cs with
        | nil => exact absurd hp (pySplit_ne_nil ' ' cs)
        | cons w ws => exact ⟨w, ws, rfl⟩
      rw [hws] at ih ⊢
      cases ws with
      | nil =>
        simp only [addTrailingSpaces, List.flatten] at ih ⊢
        simp [ih]
      | cons x xs =>
        simp only [addTrailingSpaces, List.flatten] at ih ⊢
        simp [ih]
    · simp only [pySplit, if_neg h]
      obtain ⟨w, ws, hws⟩ : ∃ w ws, pySplit ' ' cs = w :: ws := by
        cases hp : pySplit ' ' cs with
        | nil => exact absurd hp (pySplit_ne_nil ' ' cs)
        | cons w ws => exact ⟨w, ws, rfl⟩
      rw [hws] at ih ⊢
      cases ws with
      | nil =>
        simp only [addTrailingSpaces, List.flatten] at ih ⊢
        simp only [List.append_nil] at ih ⊢
        simp [ih]
      | cons x xs =>
        simp only [addTrailingSpaces, List.flatten] at ih ⊢
        simp [ih]

/-! ### Text extractor (server.py lines 243-346) -/

/-- Python `s.startswith(('-', '*', '•'))`. -/
def startsWithBullet : Str → Bool
  | [] => false
  | c :: _ => c = '-' || c = '*' || c = '•'

/-- Python `s.lstrip('-*• ')`. -/
def lstripBullets (s : Str) : Str :=
  s.dropWhile (fun c => c = '-' || c = '*' || c = '•' || c = ' ')

/-- Python `s.strip('*')`. -/
def stripStars (s : Str) : Str :=
  ((s.dropWhile (· = '*')).reverse.dropWhile (· = '*')).reverse

/-- Python `re.match(r'^[\d]+[.\)]\s*', s)`: one or more digits, then `.`
or `)`, then any whitespace; returns the remainder after the match. -/
def matchNumbered (s : Str) : Option Str :=
  match s.takeWhile Char.isDigit, s.dropWhile Char.isDigit with
  | [], _ => none
  | _ :: _, c :: r =>
    if c = '.' || c = ')' then some (r.dropWhile Char.isWhitespace) else none
  | _ :: _, [] => none

/-- Python `re.sub(r'^[\d]+[.\)]\s*', '', s)`: strip the leading numbering
marker when present, otherwise leave the string unchanged. -/
def subNumbered (s : Str) : Str := (matchNumbered s).getD s

/-- server.py lines 284-285: `re.sub` away the numbering, then
`lstrip('-*• ')`, then `strip()`. -/
def cleanActionItem (stripped : Str) : Str :=
  stripS (lstripBullets (subNumbered stripped))

/-- server.py line 264: the lowered, stripped line contains
`"next action"` or `"next step"`. -/
def isActionsHeading (line : Str) : Bool :=
  containsSub (stripS (lowerS line)) (str "next action") ||
    containsSub (stripS (lowerS line)) (str "next step")

/-- Python `s.startswith('**') and s.endswith('**')` (line 288). -/
def isBoldLine (s : Str) : Bool :=
  (str "**").isPrefixOf s && (str "**").isSuffixOf s

/-- Loop state of `extract_next_actions`: the `actions` accumulator and
the `in_actions` flag. -/
structure ActSt where
  acc : List Str
  inA : Bool
deriving DecidableEq

/-- One iteration of the `for line in lines` loop of
`extract_next_actions` (server.py lines 260-295).  The heading branch's
same-line-colon analysis (lines 267-272) ends in `continue` on every
path and so has no effect on the state; the final `elif ... : pass`
branch (lines 293-295) likewise has no effect. -/
def actionStep (st : ActSt) (line : Str) : ActSt :=
  if isActionsHeading line then
    { st with inA := true }
  else if st.inA then
    let stripped := stripS line
    if stripped = [] then st
    else if (matchNumbered stripped).isSome || startsWithBullet stripped then
      let a := cleanActionItem stripped
      if a = [] then st else { st with acc := st.acc ++ [a] }
    else if isBoldLine stripped then
      let a := stripS (stripStars stripped)
      if a = [] then st else { st with acc := st.acc ++ [a] }
    else st
  else st

/-- `extract_next_actions` after the split into lines: fold the loop body
over the lines, then apply the `actions[:5]` cap (line 297). -/
def extractNextActionsLines (lines : List Str) : List Str :=
  ((lines.foldl actionStep ⟨[], false⟩).acc).take 5

/-- server.py lines 243-297. -/
def extract_next_actions (content : Str) : List Str :=
  if content = [] then []
  else extractNextActionsLines (pySplit '\n' content)

/-- Loop state of `extract_assumptions`. -/
structure AsmSt where
  acc : List Str
  inA : Bool
deriving DecidableEq

/-- One iteration of the `for line in lines` loop of
`extract_assumptions` (server.py lines 317-344). -/
def assumptionStep (st : AsmSt) (line : Str) : AsmSt :=
  if containsSub (stripS (lowerS line)) (str "assumption") then
    { st with inA := true }
  else if st.inA && (str "#").isPrefixOf (stripS line) then
    { st with inA := false }
  else if st.inA && containsSub (stripS (lowerS line)) (str "next action") then
    { st with inA := false }
  else if st.inA then
    let stripped := stripS line
    if stripped = [] then st
    else if startsWithBullet stripped then
      let a := stripS (lstripBullets stripped)
      if a = [] then st else { st with acc := st.acc ++ [a] }
    else st
  else st

/-- `extract_assumptions` after the split into lines, with the
`assumptions[:5]` cap (line 346). -/
def extractAssumptionsLines (lines : List Str) : List Str :=
  ((lines.foldl assumptionStep ⟨[], false⟩).acc).take 5

/-- server.py lines 300-346. -/
def extract_assumptions (content : Str) : List Str :=
  if content = [] then []
  else extractAssumptionsLines (pySplit '\n' content)

/-! ### Streaming orchestrator (server.py lines 122-240)

The two collaborator calls `hub.arun` and `agent.arun` are external; each is
modelled by a behaviour type enumerating the outcomes the code
distinguishes: the call raises, or returns a result without a string
`content` attribute, or returns a string.  For the router the string is
further classified by what `json.loads` plus `parsed.get` do with it.
The SSE frames the generator yields are modelled as structured events; a
`delta`/`final` event stands for its `data: <json>\n\n` frame and `done`
for the literal sentinel frame `data: [DONE]\n\n`. -/

/-- shared_instructions.py line 14. -/
def AGNO_CONTRACT_VERSION : Str := str "v1"

/-- What `json.loads` plus `parsed.get("agent", "Ops")` do with the
router's string content (server.py lines 146-152). -/
inductive ParseOutcome where
  /-- `json.loads` raises `JSONDecodeError`: the text only becomes the
  (unused) routing reason. -/
  | decodeError
  /-- Valid JSON object; `agent` is its `"agent"` field when that is
  present (rendered as text). -/
  | obj (agent : Option Str)
  /-- Valid JSON but not an object: `parsed.get` raises an
  `AttributeError` rendering as `attrMsg`. -/
  | nonObj (attrMsg : Str)
deriving DecidableEq

/-- The router result's `content` attribute (server.py lines 143-152). -/
inductive RouterContent where
  | noAttr
  | nonString
  | ofStr (p : ParseOutcome)
deriving DecidableEq

/-- Behaviour of the `hub.arun` call. -/
inductive RouterBehavior where
  | raises (msg : Str)
  | returns (rc : RouterContent)
deriving DecidableEq

/-- The specialist result's `content` attribute (server.py lines 176-179). -/
inductive AgentContent where
  | noAttr
  | nonString
  | ofStr (s : Str)
deriving DecidableEq

/-- Behaviour of the `agent.arun` call. -/
inductive AgentBehavior where
  | raises (msg : Str)
  | returns (ac : AgentContent)
deriving DecidableEq

/-- The `final` event's payload (the `AgentResponse` dict built at
server.py lines 199-211 and 224-237); `assumptions = none` models the
key being absent. -/
structure Payload where
  version : Str
  agent : Str
  content : Str
  next_actions : List Str
  assumptions : Option (List Str)
deriving DecidableEq

/-- One yielded SSE frame. -/
inductive Event where
  | delta (content : Str)
  | final (payload : Payload)
  /-- The sentinel frame `data: [DONE]\n\n`. -/
  | done
deriving DecidableEq

/-- server.py line 155. -/
def VALID_AGENTS : List Str :=
  [str "Ops", str "Content", str "Growth", str "Systems"]

/-- agents.py lines 241-249: the keys of the `AGENTS` registry. -/
def AGENT_KEYS : List Str :=
  [str "Hub", str "Ops", str "Content", str "Growth", str "Systems"]

/-- agents.py lines 252-257: case-insensitive registry lookup; the
returned key stands for the agent object. -/
def get_agent_by_name (name : Str) : Option Str :=
  AGENT_KEYS.find? (fun k => lowerS k == lowerS name)

/-- server.py lines 141-152 followed by the `parsed.get("agent", "Ops")`
read: produce the (pre-validation) agent name, or the `AttributeError`
that escapes to the outer handler when the parsed JSON is not an
object.  `agent_name` keeps its initial `"Ops"` on every non-object,
non-string and unparseable outcome. -/
def route_agent_name : RouterContent → Except Str Str
  | .noAttr => .ok (str "Ops")
  | .nonString => .ok (str "Ops")
  | .ofStr .decodeError => .ok (str "Ops")
  | .ofStr (.obj agent) => .ok (agent.getD (str "Ops"))
  | .ofStr (.nonObj m) => .error m

/-- server.py lines 154-164: validate the routed name against the closed
set, then look it up in the registry; both fallbacks record an
assumption.  Returns the resolved name and the accumulated assumptions. -/
def resolve_agent (name0 : Str) : Str × List Str :=
  let v : Str × List Str :=
    if name0 ∈ VALID_AGENTS then (name0, [])
    else (str "Ops",
      [str "Unknown agent \x27" ++ name0 ++ str "\x27 requested, defaulting to Ops"])
  match get_agent_by_name v.1 with
  | some _ => v
  | none => (str "Ops", v.2 ++ [str "Agent lookup failed, defaulting to Ops"])

/-- The `response_content` variable (server.py lines 175-179): the
specialist's content when it is a string, `""` otherwise. -/
def acString : AgentContent → Str
  | .ofStr s => s
  | _ => []

/-- server.py lines 218-237: the error-path terminal payload. -/
def error_final (msg : Str) : Payload :=
  { version := AGNO_CONTRACT_VERSION
    agent := str "Systems"
    content := str "Error: " ++ msg
    next_actions :=
      [str "Retry the request",
       str "Check the Hub logs for details",
       str "Contact support if the issue persists"]
    assumptions := some [str "An error occurred during processing", msg] }

/-- server.py lines 216-240: the `except` block yields an error delta,
the error payload's `final` event, and the sentinel. -/
def errorEvents (msg : Str) : List Event :=
  [Event.delta (str "Error: " ++ msg),
   Event.final (error_final msg),
   Event.done]

/-- server.py lines 188-211: the success-path terminal payload built from
the resolved agent name, the assumptions accumulated so far and the
specialist content.  `full_content` is the prefix plus the concatenation
of the streamed chunks; `next_actions` falls back to the single generic
action when extraction finds none, recording an assumption; the
`assumptions` key is only included when the list is non-empty. -/
def success_final (agentName : Str) (asms0 : List Str) (ac : AgentContent) :
    Payload :=
  let responseContent := acString ac
  let fullContent := str "[" ++ agentName ++ str "] " ++
    (match ac with
     | .ofStr s => (chunksOf s).flatten
     | _ => [])
  let nextActions0 := extract_next_actions responseContent
  let asms1 := asms0 ++ extract_assumptions responseContent
  { version := AGNO_CONTRACT_VERSION
    agent := agentName
    content := fullContent
    next_actions :=
      if nextActions0 = [] then
        [str "Review the response and determine appropriate follow-up"]
      else nextActions0
    assumptions :=
      let asms2 :=
        if nextActions0 = [] then
          asms1 ++ [str "No explicit next actions found in agent response"]
        else asms1
      if asms2 = [] then none else some asms2 }

/-- server.py lines 166-214: the events of the success path — the agent
prefix delta, one delta per chunk of the specialist's string content,
the `final` event and the sentinel. -/
def success_events (agentName : Str) (asms0 : List Str) (ac : AgentContent) :
    List Event :=
  Event.delta (str "[" ++ agentName ++ str "] ") ::
    (match ac with
     | .ofStr s => (chunksOf s).map Event.delta
     | _ => []) ++
    [Event.final (success_final agentName asms0 ac), Event.done]

/-- server.py lines 122-240: the full event sequence yielded by
`stream_response`, as a function of the two collaborator behaviours.
An exception raised at `hub.arun`, at `parsed.get` on a non-object, or
at `agent.arun` reaches the single `except` block; in the last case the
agent-prefix delta has already been yielded. -/
def stream_response (rb : RouterBehavior) (ab : AgentBehavior) : List Event :=
  match rb with
  | .raises msg => errorEvents msg
  | .returns rc =>
    match route_agent_name rc with
    | .error msg => errorEvents msg
    | .ok name0 =>
      let r := resolve_agent name0
      match ab with
      | .raises msg =>
        Event.delta (str "[" ++ r.1 ++ str "] ") :: errorEvents msg
      | .returns ac => success_events r.1 r.2 ac

/-! ### Tool callback (tools.py lines 13-78)

The HTTP round trip inside `call_tool` is external; it is modelled by an
outcome type over an abstract body type `β` (the value `response.json()`
parses to).  `call_tool` is a total function: every failure mode maps to
the uniform `{"success": False, "error": {"code", "message"}}` dict,
modelled by the `failure` constructor. -/

/-- Behaviour of the `httpx` POST inside `call_tool`. -/
inductive HttpOutcome (β : Type) where
  /-- `httpx.TimeoutException`. -/
  | timeout
  /-- Any other exception raised during the request, rendered as `msg`. -/
  | raised (msg : Str)
  /-- A response arrived; `body` is what `response.json()` does
  (`.error m` when it raises, rendered as `m`). -/
  | response (status : Nat) (body : Except Str β)

/-- What `call_tool` returns to its caller. -/
inductive ToolReturn (β : Type) where
  /-- The dict `{"success": False, "error": {"code": code, "message": message}}`. -/
  | failure (code message : Str)
  /-- `response.json()` returned verbatim (status 200). -/
  | passthrough (b : β)

/-- Python truthiness of `context.get("tool_api_url")`: `None` or `""`. -/
def urlFalsy (u : Option Str) : Bool := u = none || u = some []

/-- tools.py lines 13-78. -/
def call_tool {β : Type} (tool_api_url : Option Str) (http : HttpOutcome β) :
    ToolReturn β :=
  if urlFalsy tool_api_url then
    .failure (str "NO_TOOL_API") (str "TOOL_API_URL not configured")
  else
    match http with
    | .timeout => .failure (str "TIMEOUT") (str "Tool execution timed out")
    | .raised msg => .failure (str "EXECUTION_ERROR") msg
    | .response status body =>
      if status ≠ 200 then
        .failure (str "HTTP_ERROR") (str "Tool API returned " ++ (Nat.repr status).data)
      else
        match body with
        | .error msg => .failure (str "EXECUTION_ERROR") msg
        | .ok b => .passthrough b

/-! ### Helper lemmas about the extraction loop -/

theorem actionStep_inA_of_inA (st : ActSt) (line : Str) (h : st.inA = true) :
    (actionStep st line).inA = true := by
  unfold actionStep
  by_cases h1 : isActionsHeading line = true
  · rw [if_pos h1]
  · rw [if_neg h1, if_pos h]
    dsimp only
    split_ifs <;> simp [h]

theorem foldl_actionStep_inA (lines : List Str) (st : ActSt)
    (h : st.inA = true) : (lines.foldl actionStep st).inA = true := by
  induction lines generalizing st with
  | nil => simpa using h
  | cons l ls ih => exact ih _ (actionStep_inA_of_inA st l h)

theorem actionStep_acc (st : ActSt) (line : Str) :
    (actionStep st line).acc = st.acc ∨
      ∃ a, (actionStep st line).acc = st.acc ++ [a] := by
  unfold actionStep
  by_cases h1 : isActionsHeading line = true
  · rw [if_pos h1]
    left
    rfl
  · rw [if_neg h1]
    by_cases h2 : st.inA = true
    · rw [if_pos h2]
      dsimp only
      split_ifs <;> simp
    · rw [if_neg h2]
      left
      rfl

theorem foldl_actionStep_acc_extend (lines : List Str) (st : ActSt) :
    ∃ ext, (lines.foldl actionStep st).acc = st.acc ++ ext := by
  induction lines generalizing st with
  | nil => exact ⟨[], by simp⟩
  | cons l ls ih =>
    obtain ⟨ext, hext⟩ := ih (actionStep st l)
    rcases actionStep_acc st l with h | ⟨a, h⟩
    · exact ⟨ext, by simp [List.foldl_cons, hext, h]⟩
    · exact ⟨a :: ext, by simp [List.foldl_cons, hext, h]⟩

theorem matchNumbered_nil : matchNumbered [] = none := rfl

/-- Processing a valid numbered item while the flag is set appends
exactly its cleaned text. -/
theorem actionStep_numbered (st : ActSt) (line : Str)
    (hin : st.inA = true)
    (hhead : isActionsHeading line = false)
    (hnum : (matchNumbered (stripS line)).isSome = true)
    (hclean : cleanActionItem (stripS line) ≠ []) :
    actionStep st line = ⟨st.acc ++ [cleanActionItem (stripS line)], true⟩ := by
  have hne : stripS line ≠ [] := by
    intro h
    rw [h, matchNumbered_nil] at hnum
    simp at hnum
  unfold actionStep
  rw [hhead]
  simp only [Bool.false_eq_true, if_false, hin, if_pos rfl]
  rw [if_neg hne]
  rw [if_pos (by simp [hnum])]
  rw [if_neg hclean]
  cases st
  simp_all

/-- Processing a bullet item while the flag is set appends exactly its
cleaned text. -/
theorem actionStep_bullet (st : ActSt) (line : Str)
    (hin : st.inA = true)
    (hhead : isActionsHeading line = false)
    (hbul : startsWithBullet (stripS line) = true)
    (hclean : cleanActionItem (stripS line) ≠ []) :
    actionStep st line = ⟨st.acc ++ [cleanActionItem (stripS line)], true⟩ := by
  have hne : stripS line ≠ [] := by
    intro h
    rw [h] at hbul
    simp [startsWithBullet] at hbul
  unfold actionStep
  rw [hhead]
  simp only [Bool.false_eq_true, if_false, hin, if_pos rfl]
  rw [if_neg hne]
  rw [if_pos (by simp [hbul])]
  rw [if_neg hclean]
  cases st
  simp_all

/-- With the flag set, a run of valid numbered items is collected in
order, each stripped of its numbering marker. -/
theorem foldl_actionStep_collect (items : List Str) (acc : List Str)
    (h : ∀ it ∈ items, isActionsHeading it = false ∧
      (matchNumbered (stripS it)).isSome = true ∧
      cleanActionItem (stripS it) ≠ []) :
    items.foldl actionStep ⟨acc, true⟩ =
      ⟨acc ++ items.map (fun it => cleanActionItem (stripS it)), true⟩ := by
  induction items generalizing acc with
  | nil => simp
  | cons it its ih =>
    obtain ⟨h1, h2, h3⟩ := h it (List.mem_cons_self it its)
    rw [List.foldl_cons, actionStep_numbered ⟨acc, true⟩ it rfl h1 h2 h3]
    rw [ih _ (fun x hx => h x (List.mem_cons_of_mem it hx))]
    simp

theorem actionStep_not_heading_not_inA (st : ActSt) (line : Str)
    (hin : st.inA = false) (hhead : isActionsHeading line = false) :
    actionStep st line = st := by
  unfold actionStep
  rw [hhead]
  simp [hin]

theorem assumptionStep_no_trigger (st : AsmSt) (line : Str)
    (hin : st.inA = false)
    (h : containsSub (stripS (lowerS line)) (str "assumption") = false) :
    assumptionStep st line = st := by
  unfold assumptionStep
  rw [h]
  simp [hin]

theorem mem_take_five_append (l1 l2 : List Str) (a : Str)
    (h : l1.length < 5) : a ∈ (l1 ++ a :: l2).take 5 := by
  rw [List.take_append_eq_append_take]
  refine List.mem_append_right _ ?_
  obtain ⟨k, hk⟩ : ∃ k, 5 - l1.length = k + 1 :=
    ⟨5 - l1.length - 1, by omega⟩
  rw [hk]
  exact List.mem_cons_self a _

/-! ### The claims -/

/-- Claim C3: for every specialist output string, concatenating the
content of the delta events emitted by the content-streaming loop
reproduces the output byte for byte; each chunk is a word of
`content.split(' ')` with a trailing space appended to every chunk
except the last. -/
theorem chunk_round_trip (content : Str) :
    (chunksOf content).flatten = content
      ∧ chunksOf content = addTrailingSpaces (pySplit ' ' content) :=
  ⟨flatten_chunksOf content, rfl⟩

/-- Counterexample to claim C4 as stated: when the router call raises,
the stream does emit a delta event (carrying the error text) before the
terminal payload. -/
theorem router_failure_emits_delta :
    Event.delta (str "Error: boom") ∈
      stream_response (.raises (str "boom")) (.returns (.ofStr [])) := by
  decide

/-- Claim C4 (amended): when the router call raises, the stream emits no
specialist content — exactly one delta event carrying the error message —
then the terminal payload, whose agent is the Systems specialist and
whose next_actions are the fixed remediation list. -/
theorem router_failure_events (msg : Str) (ab : AgentBehavior) :
    stream_response (.raises msg) ab
        = [Event.delta (str "Error: " ++ msg),
           Event.final (error_final msg), Event.done]
      ∧ (error_final msg).agent = str "Systems"
      ∧ (error_final msg).next_actions
          = [str "Retry the request", str "Check the Hub logs for details",
             str "Contact support if the issue persists"] :=
  ⟨rfl, rfl, rfl⟩

/-- Claim C10: when the router content is valid JSON but not a JSON
object, the default-to-Ops fallback is not applied: the attribute access
raises, the request takes the generic exception path, and the caller
receives an error delta plus a final payload whose agent is Systems. -/
theorem non_object_routing_json (msg : Str) (ab : AgentBehavior) :
    stream_response (.returns (.ofStr (.nonObj msg))) ab
        = [Event.delta (str "Error: " ++ msg),
           Event.final (error_final msg), Event.done]
      ∧ (error_final msg).agent = str "Systems"
      ∧ (error_final msg).agent ≠ str "Ops" :=
  ⟨rfl, rfl, by
    rw [show (error_final msg).agent = str "Systems" from rfl]
    decide⟩

/-- Claim C2: for every behaviour of the router and specialist calls,
the event sequence is some delta events, then exactly one final event,
then the sentinel, with nothing after it. -/
theorem termination_framing (rb : RouterBehavior) (ab : AgentBehavior) :
    ∃ ds p, stream_response rb ab = ds ++ [Event.final p, Event.done]
      ∧ ∀ e ∈ ds, ∃ c, e = Event.delta c := by
  cases rb with
  | raises msg =>
    refine ⟨[Event.delta (str "Error: " ++ msg)], error_final msg, rfl, ?_⟩
    intro e he
    simp only [List.mem_singleton] at he
    exact ⟨_, he⟩
  | returns rc =>
    cases hr : route_agent_name rc with
    | error msg =>
      refine ⟨[Event.delta (str "Error: " ++ msg)], error_final msg, ?_, ?_⟩
      · simp [stream_response, hr, errorEvents]
      · intro e he
        simp only [List.mem_singleton] at he
        exact ⟨_, he⟩
    | ok name0 =>
      cases ab with
      | raises msg =>
        refine ⟨[Event.delta (str "[" ++ (resolve_agent name0).1 ++ str "] "),
                 Event.delta (str "Error: " ++ msg)], error_final msg, ?_, ?_⟩
        · simp [stream_response, hr, errorEvents]
        · intro e he
          simp only [List.mem_cons, List.mem_singleton, List.not_mem_nil,
            or_false] at he
          rcases he with he | he
          · exact ⟨_, he⟩
          · exact ⟨_, he⟩
      | returns ac =>
        refine ⟨Event.delta (str "[" ++ (resolve_agent name0).1 ++ str "] ") ::
                  (match ac with
                   | .ofStr s => (chunksOf s).map Event.delta
                   | _ => []),
                success_final (resolve_agent name0).1 (resolve_agent name0).2 ac,
                ?_, ?_⟩
        · cases ac <;> simp [stream_response, hr, success_events]
        · intro e he
          simp only [List.mem_cons] at he
          rcases he with he | he
          · exact ⟨_, he⟩
          · cases ac with
            | ofStr s =>
              simp only [List.mem_map] at he
              obtain ⟨c, _, hc⟩ := he
              exact ⟨c, hc.symm⟩
            | noAttr => simp at he
            | nonString => simp at he

theorem success_final_next_actions_ne_nil (n : Str) (a : List Str)
    (ac : AgentContent) : (success_final n a ac).next_actions ≠ [] := by
  simp only [success_final]
  split_ifs with h <;> simp [h]

theorem final_mem_stream_response (rb : RouterBehavior) (ab : AgentBehavior)
    (p : Payload) (hmem : Event.final p ∈ stream_response rb ab) :
    (∃ msg, p = error_final msg) ∨
      (∃ n a ac, p = success_final n a ac) := by
  cases rb with
  | raises msg =>
    left
    simp [stream_response, errorEvents] at hmem
    exact ⟨msg, hmem⟩
  | returns rc =>
    cases hr : route_agent_name rc with
    | error msg =>
      left
      simp [stream_response, hr, errorEvents] at hmem
      exact ⟨msg, hmem⟩
    | ok name0 =>
      cases ab with
      | raises msg =>
        left
        simp [stream_response, hr, errorEvents] at hmem
        exact ⟨msg, hmem⟩
      | returns ac =>
        right
        cases ac <;> simp [stream_response, hr, success_events] at hmem <;>
          exact ⟨_, _, _, hmem⟩

/-- Claim C1: every final payload has a non-empty next_actions list; on
the success path an empty extraction is replaced by exactly one generic
action with an assumption recording the synthesis, and the error-path
payload carries the fixed remediation list. -/
theorem next_actions_never_empty :
    (∀ (rb : RouterBehavior) (ab : AgentBehavior) (p : Payload),
        Event.final p ∈ stream_response rb ab → 1 ≤ p.next_actions.length)
    ∧ (∀ (agentName : Str) (asms0 : List Str) (ac : AgentContent),
        extract_next_actions (acString ac) = [] →
          (success_final agentName asms0 ac).next_actions
              = [str "Review the response and determine appropriate follow-up"]
            ∧ ∃ l, (success_final agentName asms0 ac).assumptions = some l
                ∧ str "No explicit next actions found in agent response" ∈ l)
    ∧ (∀ msg : Str, (error_final msg).next_actions
        = [str "Retry the request", str "Check the Hub logs for details",
           str "Contact support if the issue persists"]) := by
  refine ⟨?_, ?_, fun _ => rfl⟩
  · intro rb ab p hmem
    rcases final_mem_stream_response rb ab p hmem with ⟨msg, rfl⟩ | ⟨n, a, ac, rfl⟩
    · exact by simp [error_final]
    · have h := success_final_next_actions_ne_nil n a ac
      cases hna : (success_final n a ac).next_actions with
      | nil => exact absurd hna h
      | cons x xs => simp [hna]
  · intro agentName asms0 ac h
    constructor
    · simp [success_final, h]
    · refine ⟨(asms0 ++ extract_assumptions (acString ac)) ++
        [str "No explicit next actions found in agent response"], ?_, ?_⟩
      · simp [success_final, h]
      · simp

/-- Witness for claim C1 at concrete inputs. -/
theorem next_actions_never_empty_witness :
    (1 ≤ (error_final (str "boom")).next_actions.length)
      ∧ ((success_final (str "Ops") [] (.ofStr [])).next_actions
            = [str "Review the response and determine appropriate follow-up"]
          ∧ ∃ l, (success_final (str "Ops") [] (.ofStr [])).assumptions = some l
              ∧ str "No explicit next actions found in agent response" ∈ l) :=
  ⟨next_actions_never_empty.1 (.raises (str "boom")) (.returns (.ofStr []))
      (error_final (str "boom")) (by decide),
   next_actions_never_empty.2.1 (str "Ops") [] (.ofStr []) (by decide)⟩

theorem get_agent_by_name_Ops : get_agent_by_name (str "Ops") = some (str "Ops") := by
  decide

theorem resolve_agent_unknown (name : Str) (h : name ∉ VALID_AGENTS) :
    resolve_agent name =
      (str "Ops",
       [str "Unknown agent \x27" ++ name ++ str "\x27 requested, defaulting to Ops"]) := by
  unfold resolve_agent
  rw [if_neg h]
  simp only [get_agent_by_name_Ops]

theorem success_final_assumptions_mem (agentName : Str) (a0 : Str)
    (rest : List Str) (ac : AgentContent) :
    ∃ l, (success_final agentName (a0 :: rest) ac).assumptions = some l
      ∧ a0 ∈ l := by
  by_cases h : extract_next_actions (acString ac) = []
  · exact ⟨((a0 :: rest) ++ extract_assumptions (acString ac)) ++
        [str "No explicit next actions found in agent response"],
      by simp [success_final, h], by simp⟩
  · exact ⟨(a0 :: rest) ++ extract_assumptions (acString ac),
      by simp [success_final, h], by simp⟩

/-- Claim C5: a routing decision whose agent field is a string outside
the closed specialist set leads (when the specialist call itself returns)
to a final payload whose agent is the default Ops, with an assumption
recording the substitution of the unknown name. -/
theorem unknown_agent_defaults_to_ops (name : Str) (ac : AgentContent)
    (h : name ∉ VALID_AGENTS) :
    ∃ p, Event.final p ∈
        stream_response (.returns (.ofStr (.obj (some name)))) (.returns ac)
      ∧ p.agent = str "Ops"
      ∧ ∃ l, p.assumptions = some l
          ∧ (str "Unknown agent \x27" ++ name ++
              str "\x27 requested, defaulting to Ops") ∈ l := by
  have hres := resolve_agent_unknown name h
  refine ⟨success_final (str "Ops")
      [str "Unknown agent \x27" ++ name ++ str "\x27 requested, defaulting to Ops"] ac,
    ?_, rfl, ?_⟩
  · show Event.final _ ∈
      match route_agent_name (.ofStr (.obj (some name))) with
      | .error msg => errorEvents msg
      | .ok name0 =>
        match AgentBehavior.returns ac with
        | .raises msg =>
          Event.delta (str "[" ++ (resolve_agent name0).1 ++ str "] ") ::
            errorEvents msg
        | .returns ac => success_events (resolve_agent name0).1 (resolve_agent name0).2 ac
    show Event.final _ ∈ success_events (resolve_agent name).1 (resolve_agent name).2 ac
    rw [hres]
    cases ac <;> simp [success_events]
  · exact success_final_assumptions_mem _ _ _ _

/-- Witness for claim C5 at the concrete unknown name `"Unknown"`. -/
theorem unknown_agent_defaults_to_ops_witness :
    ∃ p, Event.final p ∈
        stream_response (.returns (.ofStr (.obj (some (str "Unknown")))))
          (.returns (.ofStr []))
      ∧ p.agent = str "Ops"
      ∧ ∃ l, p.assumptions = some l
          ∧ (str "Unknown agent \x27" ++ str "Unknown" ++
              str "\x27 requested, defaulting to Ops") ∈ l :=
  unknown_agent_defaults_to_ops (str "Unknown") (.ofStr []) (by decide)

/-- Claim C6: a "next actions" heading followed by five or more valid
numbered items (and then anything at all) yields exactly the first five
items, in order, with their numbering markers stripped. -/
theorem action_cap_enforcement (heading : Str) (items rest : List Str)
    (hhead : isActionsHeading heading = true)
    (hitems : ∀ it ∈ items, isActionsHeading it = false ∧
      (matchNumbered (stripS it)).isSome = true ∧
      cleanActionItem (stripS it) ≠ [])
    (hlen : 5 ≤ items.length) :
    extractNextActionsLines (heading :: (items ++ rest))
        = (items.map (fun it => cleanActionItem (stripS it))).take 5
      ∧ (extractNextActionsLines (heading :: (items ++ rest))).length = 5 := by
  have h0 : actionStep ⟨[], false⟩ heading = ⟨[], true⟩ := by
    unfold actionStep
    rw [if_pos hhead]
  have hcol := foldl_actionStep_collect items [] hitems
  obtain ⟨ext, hext⟩ := foldl_actionStep_acc_extend rest
    ⟨items.map (fun it => cleanActionItem (stripS it)), true⟩
  have hmaplen : 5 ≤ (items.map (fun it => cleanActionItem (stripS it))).length := by
    simpa using hlen
  have hkey : extractNextActionsLines (heading :: (items ++ rest))
      = (items.map (fun it => cleanActionItem (stripS it))).take 5 := by
    unfold extractNextActionsLines
    rw [List.foldl_cons, h0, List.foldl_append, hcol]
    rw [show (⟨[] ++ items.map (fun it => cleanActionItem (stripS it)), true⟩ : ActSt)
        = ⟨items.map (fun it => cleanActionItem (stripS it)), true⟩ by simp]
    rw [hext, List.take_append_eq_append_take, Nat.sub_eq_zero_of_le hmaplen]
    simp
  refine ⟨hkey, ?_⟩
  rw [hkey, List.length_take]
  omega

/-- Witness for claim C6: eight numbered items, the first five survive. -/
theorem action_cap_enforcement_witness :
    extractNextActionsLines (str "Next actions:" ::
        ([str "1. alpha", str "2. beta", str "3. gamma", str "4. delta",
          str "5. epsilon", str "6. zeta", str "7. eta", str "8. theta"] ++ []))
        = ([str "1. alpha", str "2. beta", str "3. gamma", str "4. delta",
            str "5. epsilon", str "6. zeta", str "7. eta", str "8. theta"].map
            (fun it => cleanActionItem (stripS it))).take 5
      ∧ (extractNextActionsLines (str "Next actions:" ::
          ([str "1. alpha", str "2. beta", str "3. gamma", str "4. delta",
            str "5. epsilon", str "6. zeta", str "7. eta", str "8. theta"] ++ []))).length
          = 5 :=
  action_cap_enforcement (str "Next actions:")
    [str "1. alpha", str "2. beta", str "3. gamma", str "4. delta",
     str "5. epsilon", str "6. zeta", str "7. eta", str "8. theta"] []
    (by decide) (by decide) (by decide)

theorem foldl_actionStep_no_heading (lines : List Str)
    (h : ∀ l ∈ lines, isActionsHeading l = false) :
    lines.foldl actionStep ⟨[], false⟩ = ⟨[], false⟩ := by
  induction lines with
  | nil => rfl
  | cons l ls ih =>
    rw [List.foldl_cons,
      actionStep_not_heading_not_inA ⟨[], false⟩ l rfl (h l (List.mem_cons_self l ls))]
    exact ih (fun x hx => h x (List.mem_cons_of_mem l hx))

theorem foldl_assumptionStep_no_trigger (lines : List Str)
    (h : ∀ l ∈ lines, containsSub (stripS (lowerS l)) (str "assumption") = false) :
    lines.foldl assumptionStep ⟨[], false⟩ = ⟨[], false⟩ := by
  induction lines with
  | nil => rfl
  | cons l ls ih =>
    rw [List.foldl_cons,
      assumptionStep_no_trigger ⟨[], false⟩ l rfl (h l (List.mem_cons_self l ls))]
    exact ih (fun x hx => h x (List.mem_cons_of_mem l hx))

/-- Claim C7: both extractors are total, deterministic functions of their
input: identical inputs give identical outputs, the empty string gives an
empty list, and input with no section trigger on any line (whitespace,
noise, sectionless text) gives an empty list. -/
theorem extractors_total_deterministic :
    (∀ s : Str, extract_next_actions s = extract_next_actions s
      ∧ extract_assumptions s = extract_assumptions s)
    ∧ extract_next_actions [] = []
    ∧ extract_assumptions [] = []
    ∧ (∀ s : Str, (∀ line ∈ pySplit '\n' s, isActionsHeading line = false) →
        extract_next_actions s = [])
    ∧ (∀ s : Str, (∀ line ∈ pySplit '\n' s,
          containsSub (stripS (lowerS line)) (str "assumption") = false) →
        extract_assumptions s = []) := by
  refine ⟨fun s => ⟨rfl, rfl⟩, rfl, rfl, ?_, ?_⟩
  · intro s h
    unfold extract_next_actions
    split
    · rfl
    · unfold extractNextActionsLines
      rw [foldl_actionStep_no_heading _ h]
      rfl
  · intro s h
    unfold extract_assumptions
    split
    · rfl
    · unfold extractAssumptionsLines
      rw [foldl_assumptionStep_no_trigger _ h]
      rfl

/-- Witness for claim C7: noise and whitespace-only inputs produce empty
lists. -/
theorem extractors_total_deterministic_witness :
    extract_next_actions (str "  \t \n ~@!% binary \x01 noise \n  ") = []
      ∧ extract_assumptions (str "  \t \n ~@!% binary \x01 noise \n  ") = [] :=
  ⟨extractors_total_deterministic.2.2.2.1 _ (by decide),
   extractors_total_deterministic.2.2.2.2 _ (by decide)⟩

/-- Claim C9: the `in_actions` flag of `extract_next_actions` is never
cleared once set, so any later numbered or bulleted line — including a
bullet under a subsequent Assumptions heading — is recorded as an action
while the 5-item cap is not yet reached. -/
theorem in_actions_flag_never_cleared :
    (∀ (st : ActSt) (line : Str), st.inA = true →
      (actionStep st line).inA = true)
    ∧ (∀ (pre post : List Str) (line : Str),
        (pre.foldl actionStep ⟨[], false⟩).inA = true →
        isActionsHeading line = false →
        startsWithBullet (stripS line) = true →
        cleanActionItem (stripS line) ≠ [] →
        ((pre.foldl actionStep ⟨[], false⟩).acc).length < 5 →
        cleanActionItem (stripS line) ∈ extractNextActionsLines (pre ++ line :: post))
    ∧ extract_next_actions (str "Next actions:\n1. Do A\nAssumptions:\n- Assumed B")
        = [str "Do A", str "Assumed B"] := by
  refine ⟨actionStep_inA_of_inA, ?_, by decide⟩
  intro pre post line hin hhead hbul hclean hlt
  unfold extractNextActionsLines
  rw [List.foldl_append, List.foldl_cons,
    actionStep_bullet _ line hin hhead hbul hclean]
  obtain ⟨ext, hext⟩ := foldl_actionStep_acc_extend post
    ⟨(pre.foldl actionStep ⟨[], false⟩).acc ++ [cleanActionItem (stripS line)], true⟩
  rw [hext]
  simp only [List.append_assoc, List.singleton_append]
  exact mem_take_five_append _ _ _ hlt

/-- Witness for claim C9: a bullet after an Assumptions heading that
itself follows an actions heading is recorded as an action. -/
theorem in_actions_flag_never_cleared_witness :
    cleanActionItem (stripS (str "- Assumed B")) ∈
      extractNextActionsLines
        ([str "Next actions:", str "1. Do A", str "Assumptions:"] ++
          str "- Assumed B" :: []) :=
  in_actions_flag_never_cleared.2.1
    [str "Next actions:", str "1. Do A", str "Assumptions:"] [] (str "- Assumed B")
    (by decide) (by decide) (by decide) (by decide) (by decide)

/-- Claim C8: `call_tool` is total and converts every failure mode —
missing configuration, timeout, non-200 status, a body that fails to
parse, or any other transport exception — into the uniform
`success: false / error: code, message` shape instead of propagating it;
every call returns either that failure shape or the parsed body. -/
theorem call_tool_never_raises :
    (∀ (β : Type) (url : Option Str) (http : HttpOutcome β),
        urlFalsy url = true →
          call_tool url http
            = .failure (str "NO_TOOL_API") (str "TOOL_API_URL not configured"))
    ∧ (∀ (β : Type) (url : Option Str), urlFalsy url = false →
        call_tool url (HttpOutcome.timeout (β := β))
          = .failure (str "TIMEOUT") (str "Tool execution timed out"))
    ∧ (∀ (β : Type) (url : Option Str) (msg : Str), urlFalsy url = false →
        call_tool url (HttpOutcome.raised (β := β) msg)
          = .failure (str "EXECUTION_ERROR") msg)
    ∧ (∀ (β : Type) (url : Option Str) (status : Nat) (body : Except Str β),
        urlFalsy url = false → status ≠ 200 →
          call_tool url (.response status body)
            = .failure (str "HTTP_ERROR")
                (str "Tool API returned " ++ (Nat.repr status).data))
    ∧ (∀ (β : Type) (url : Option Str) (msg : Str), urlFalsy url = false →
        call_tool url (.response 200 (Except.error (ε := Str) (α := β) msg))
          = .failure (str "EXECUTION_ERROR") msg)
    ∧ (∀ (β : Type) (url : Option Str) (http : HttpOutcome β),
        (∃ c m, call_tool url http = .failure c m)
          ∨ (∃ b, call_tool url http = .passthrough b)) := by
  refine ⟨?_, ?_, ?_, ?_, ?_, ?_⟩
  · intro β url http h
    unfold call_tool
    rw [if_pos h]
  · intro β url h
    unfold call_tool
    rw [if_neg (by simp [h])]
  · intro β url msg h
    unfold call_tool
    rw [if_neg (by simp [h])]
  · intro β url status body h hs
    unfold call_tool
    rw [if_neg (by simp [h])]
    dsimp only
    rw [if_pos hs]
  · intro β url msg h
    unfold call_tool
    rw [if_neg (by simp [h])]
    dsimp only
    rw [if_neg (by simp)]
  · intro β url http
    unfold call_tool
    split_ifs with h1
    · exact .inl ⟨_, _, rfl⟩
    · cases http with
      | timeout => exact .inl ⟨_, _, rfl⟩
      | raised msg => exact .inl ⟨_, _, rfl⟩
      | response status body =>
        dsimp only
        by_cases hs : status ≠ 200
        · rw [if_pos hs]
          exact .inl ⟨_, _, rfl⟩
        · rw [if_neg hs]
          cases body with
          | error msg => exact .inl ⟨_, _, rfl⟩
          | ok b => exact .inr ⟨_, rfl⟩

/-- Witness for claim C8 at concrete configurations. -/
theorem call_tool_never_raises_witness :
    (call_tool (β := Unit) none .timeout
        = .failure (str "NO_TOOL_API") (str "TOOL_API_URL not configured"))
    ∧ (call_tool (β := Unit) (some (str "http://x")) .timeout
        = .failure (str "TIMEOUT") (str "Tool execution timed out"))
    ∧ (call_tool (β := Unit) (some (str "http://x")) (.raised (str "conn reset"))
        = .failure (str "EXECUTION_ERROR") (str "conn reset"))
    ∧ (call_tool (β := Unit) (some (str "http://x")) (.response 503 (.ok ()))
        = .failure (str "HTTP_ERROR") (str "Tool API returned " ++ (Nat.repr 503).data))
    ∧ (call_tool (β := Unit) (some (str "http://x"))
          (.response 200 (Except.error (str "bad json")))
        = .failure (str "EXECUTION_ERROR") (str "bad json")) :=
  ⟨call_tool_never_raises.1 Unit none .timeout (by decide),
   call_tool_never_raises.2.1 Unit (some (str "http://x")) (by decide),
   call_tool_never_raises.2.2.1 Unit (some (str "http://x")) (str "conn reset")
     (by decide),
   call_tool_never_raises.2.2.2.1 Unit (some (str "http://x")) 503 (.ok ())
     (by decide) (by decide),
   call_tool_never_raises.2.2.2.2.1 Unit (some (str "http://x")) (str "bad json")
     (by decide)⟩

end LifeRX
